import Mathlib

/-!
Verification development for the Metis yield-aggregation MCP server
(`mcp-yield`).  The TypeScript sources are shallowly embedded:

* JavaScript numbers are modelled as `ℚ` (exact rational arithmetic;
  the floating-point representation error of the source runtime is not
  modelled, which is the standard convention for this code base's
  decimal/percentage arithmetic).
* Strings are Lean `String`s / `List Char`; the numeric rendering and
  parsing done by `toFixed`, `parseFloat` and `ethers.formatEther` is
  implemented concretely on character lists.
* `async` calls to upstream services are modelled by `Except String`
  inputs: `.ok v` is a successful response, `.error e` a rejected
  promise.  A JavaScript `try/catch` around such a call becomes a
  `match` on the `Except`.
* Runtime values whose TypeScript type is `any` and that may hold either
  a number or a string (the unified record's `tvl` field) are modelled
  by the sum type `JsVal`.
-/

/-- A JavaScript runtime value that is either a number or a string.
Used for the `tvl` field of unified records, which the TypeScript
declarations type as `number` but which the Enki transform actually
fills with a string. -/
inductive JsVal : Type
| num (q : ℚ)
| str (s : String)
deriving DecidableEq

/-- Whether a `JsVal` is a plain number. -/
def JsVal.isNum : JsVal → Bool
| .num _ => true
| .str _ => false

/-! ### Decimal digit strings

`natChars n` renders a natural number in base 10 (most significant digit
first), via a fuel-bounded digit peeler so that every definition is
structurally recursive and kernel-reducible. -/

/-- Base-10 digits of `n`, least significant first, bounded by `fuel`. -/
def toDigitsRev : ℕ → ℕ → List ℕ
| 0, _ => []
| fuel + 1, n => if n = 0 then [] else n % 10 :: toDigitsRev fuel (n / 10)

/-- The character for the decimal digit `d`. -/
def digitChar (d : ℕ) : Char := Char.ofNat (48 + d)

/-- The decimal value of a digit character. -/
def charVal (c : Char) : ℕ := c.toNat - 48

/-- Decimal rendering of a natural number, most significant digit first. -/
def natChars (n : ℕ) : List Char :=
  if n = 0 then ['0'] else ((toDigitsRev n n).map digitChar).reverse

/-- Value of a most-significant-first digit string. -/
def valDigits (cs : List Char) : ℕ := cs.foldl (fun a c => 10 * a + charVal c) 0

/-- Left-pad a digit string with zeros to width `k`. -/
def padLeft (k : ℕ) (cs : List Char) : List Char :=
  List.replicate (k - cs.length) '0' ++ cs

/-- The `k`-character fractional block for value `m` (`m < 10 ^ k`). -/
def fracChars (k m : ℕ) : List Char := padLeft k (natChars m)

/-! ### `Number.prototype.toFixed`

`rnd k q` is the integer nearest `q * 10 ^ k` (ties rounded up), the
rounding performed by `toFixed(k)` on a non-negative number; `toFixedL`
renders the rounded value with exactly `k` fractional digits. -/

/-- Round `q` at `k` decimal places to an integer numerator (half-up). -/
def rnd (k : ℕ) (q : ℚ) : ℤ := Rat.floor (q * 10 ^ k + 1 / 2)

/-- `q.toFixed(k)` for `0 ≤ q`, as a character list. -/
def toFixedPos (k : ℕ) (q : ℚ) : List Char :=
  natChars ((rnd k q).toNat / 10 ^ k) ++ '.' :: fracChars k ((rnd k q).toNat % 10 ^ k)

/-- `q.toFixed(k)` as a character list (negative numbers get a sign;
JavaScript's ties-away-from-zero on negatives is modelled as half-up on
the absolute value). -/
def toFixedL (k : ℕ) (q : ℚ) : List Char :=
  if q < 0 then '-' :: toFixedPos k (-q) else toFixedPos k q

/-! ### `DeFiApyProtocol.formatAmount` (src/index.ts)

```js
if (numAmount >= 1_000_000_000) return `${(numAmount / 1_000_000_000).toFixed(2)}B`;
else if (numAmount >= 1_000_000) return `${(numAmount / 1_000_000).toFixed(2)}M`;
else if (numAmount >= 1_000)     return `${(numAmount / 1_000).toFixed(1)}K`;
else                             return numAmount.toFixed(2);
```
The `isNaN` guard (returning "0.00") has no counterpart for `ℚ` inputs;
`formatAmountVal` below covers the string-input branch of the `any`
signature. -/

/-- `formatAmount` on a numeric argument, as a character list. -/
def formatAmountL (q : ℚ) : List Char :=
  if 10 ^ 9 ≤ q then toFixedL 2 (q / 10 ^ 9) ++ ['B']
  else if 10 ^ 6 ≤ q then toFixedL 2 (q / 10 ^ 6) ++ ['M']
  else if 1000 ≤ q then toFixedL 1 (q / 1000) ++ ['K']
  else toFixedL 2 q

/-- `formatAmount` on a numeric argument. -/
def formatAmount (q : ℚ) : String := ⟨formatAmountL q⟩

/-! ### `parseFloat` and `DeFiApyProtocol.parseFormattedAmount`

`parseFloatL` models JavaScript's `parseFloat`: skip leading
whitespace, optional sign, longest prefix `digits [ '.' digits ]`
(the exponent form never occurs in this code base and is not modelled);
`none` models `NaN`. -/

/-- JavaScript `parseFloat` on a character list (`none` = `NaN`). -/
def parseFloatL (cs : List Char) : Option ℚ :=
  let cs1 := cs.dropWhile Char.isWhitespace
  let sgn : ℚ := if cs1.head? = some '-' then -1 else 1
  let cs2 := if cs1.head? = some '-' ∨ cs1.head? = some '+' then cs1.tail else cs1
  let intD := cs2.takeWhile Char.isDigit
  let rest := cs2.dropWhile Char.isDigit
  let fracD := if rest.head? = some '.' then rest.tail.takeWhile Char.isDigit else []
  if intD.isEmpty && fracD.isEmpty then none
  else some (sgn * ((valDigits intD : ℚ) + (valDigits fracD : ℚ) / 10 ^ fracD.length))

/-- The case-insensitive magnitude suffixes accepted by the
`/^([\d.]+)([KMB])?$/i` match. -/
def isSuffixChar (c : Char) : Bool :=
  c == 'K' || c == 'k' || c == 'M' || c == 'm' || c == 'B' || c == 'b'

/-- A character matched by the `[\d.]` class. -/
def isDigitOrDot (c : Char) : Bool := c.isDigit || c == '.'

/-- Whether `cs` is a non-empty run of `[\d.]` characters. -/
def isNumChars (cs : List Char) : Bool := !cs.isEmpty && cs.all isDigitOrDot

/-- The multiplier selected by the optional suffix letter. -/
def suffixMult : Option Char → ℚ
| some c =>
    if c = 'K' ∨ c = 'k' then 1000
    else if c = 'M' ∨ c = 'm' then 1000000
    else if c = 'B' ∨ c = 'b' then 1000000000
    else 1
| none => 1

/-- The whole-string match `/^([\d.]+)([KMB])?$/i`: on success, the
numeric part and the optional suffix letter. -/
def regexSplit (cs : List Char) : Option (List Char × Option Char) :=
  match cs.getLast? with
  | none => none
  | some c =>
    if isSuffixChar c then
      if isNumChars cs.dropLast then some (cs.dropLast, some c) else none
    else if isNumChars cs then some (cs, none) else none

/-- JavaScript `String.prototype.trim` on a character list. -/
def trimL (cs : List Char) : List Char :=
  (((cs.dropWhile Char.isWhitespace).reverse).dropWhile Char.isWhitespace).reverse

/-- `parseFormattedAmount` (src/index.ts): strip `$` and `,`, trim,
match `/^([\d.]+)([KMB])?$/i`; on a match multiply the parsed mantissa
by the suffix multiplier, otherwise fall back to `parseFloat` of the
cleaned string, with `NaN` collapsing to `0`. -/
def parseFormattedAmountL (cs : List Char) : ℚ :=
  let cleaned := trimL (cs.filter (fun c => !(c == '$' || c == ',')))
  match regexSplit cleaned with
  | none => (parseFloatL cleaned).getD 0
  | some (np, suf) =>
    match parseFloatL np with
    | none => 0
    | some b => b * suffixMult suf

/-- `parseFormattedAmount` on a `String`. -/
def parseFormattedAmount (s : String) : ℚ := parseFormattedAmountL s.data

/-- Rounding to 2 decimal places (half-up), the value produced by a
`toFixed(2)`/`parseFloat` round trip on a non-negative number. -/
def roundTo2 (q : ℚ) : ℚ := (rnd 2 q : ℚ) / 100

/-! ## Protocol adapters

Upstream transport is out of scope: each adapter takes its upstream
response as an `Except String` value (`.error` = rejected promise /
thrown exception) and otherwise follows its source file line by line.
Numeric fields that arrive as decimal strings and are only ever used
numerically (BigNumber / parseFloat parsing is exact on them) are
modelled directly as `ℚ`; fields used as strings stay `String`. -/

/-- `multiplyStringAsFloat` (src/utils/aggregator.ts): `parseFloat` the
string and multiply; the callers' `|| 0` collapses the `NaN` case
(modelled by `none`) to `0`. -/
def multiplyStringAsFloat (s : Option ℚ) (m : ℚ) : ℚ := (s.getD 0) * m

/-! ### Lending adapter (src/defi/aave.ts) -/

/-- One humanized AAVE reserve record, with the fields
`transformAaveData` reads.  Rate fields are `parseFloat` results
(`none` = `NaN`); `aIncentivesData` keeps only each entry's
`incentiveAPR`.  `borrowUsage` models the source's `borrowUsageRatio`
string, copied through verbatim. -/
structure AaveReserve : Type where
  symbol : String
  name : String
  underlyingAsset : String
  supplyAPY : Option ℚ
  variableBorrowAPY : Option ℚ
  stableBorrowAPY : Option ℚ
  aIncentivesData : List (Option ℚ)
  totalLiquidityUSD : String
  totalDebtUSD : String
  borrowUsage : String
deriving DecidableEq

/-- `fetchContractData` (src/defi/aave.ts): await the pool-data view,
await the incentive view, format, return.  `fmt` stands for the external
`formatReservesAndIncentives` library call (with the timestamp and base
currency data absorbed into it).  Crucially there is no `try/catch`:
a failed view call propagates to the caller. -/
def fetchContractData {ρ ι : Type} (fmt : ρ → ι → List AaveReserve)
    (reservesCall : Except String ρ) (incentivesCall : Except String ι) :
    Except String (List AaveReserve) :=
  match reservesCall with
  | .error e => .error e
  | .ok rv =>
    match incentivesCall with
    | .error e => .error e
    | .ok iv => .ok (fmt rv iv)

/-! ### Hercules adapter (src/defi/dex/hercules.ts, the hosted-summary
variant imported by the aggregator) -/

/-- One Hercules pool record (fields used by `transformHerculesPool`;
the defensive `|| 0` / `|| "0"` guards in the transform are modelled by
`Option`). -/
structure HPool : Type where
  pool : String
  address : String
  name : String
  totalApr : Option ℚ
  tvl : Option String
  apy : Option ℚ
deriving DecidableEq

/-- `fetchHerculesPools`: `.ok (some pools)` is a well-formed response
(`Object.values(data.pools)` already flattened to a list); `.ok none`
models a payload without `data.pools`, whose `throw` is caught by the
function's own `catch`, which returns `[]` — as does any transport
error. -/
def fetchHerculesPools (resp : Except String (Option (List HPool))) : List HPool :=
  match resp with
  | .error _ => []
  | .ok none => []
  | .ok (some pools) => pools

/-- `getHerculesPoolsArray`: direct delegation to `fetchHerculesPools`. -/
def getHerculesPoolsArray (resp : Except String (Option (List HPool))) : List HPool :=
  fetchHerculesPools resp

/-! ### Netswap adapters

Two source files define the Netswap adapter: `src/defi/netswap.ts`
(paginated; accumulates every page, then filters on the liquidity
floor alone) and `src/defi/dex/netswap.ts` (single top-100 query; its
filter additionally requires a positive APR).  The aggregator imports
the `dex/` variant.  Each namespace mirrors its file. -/

/-- A pair's nested token record (only `symbol` is read). -/
structure NsToken : Type where
  symbol : String
deriving DecidableEq

/-- One Netswap pair as returned by the GraphQL pair listing, with the
fields the adapter reads.  `pairHourData` is the optional list of
trailing-24h hourly volume buckets (`hourlyVolumeUSD` values). -/
structure NsPair : Type where
  id : String
  token0 : NsToken
  token1 : NsToken
  reserveUSD : ℚ
  volumeUSD : ℚ
  pairHourData : Option (List ℚ)
deriving DecidableEq

/-- One entry of `calculateNetswapLpApr`'s result. -/
structure NsApr : Type where
  id : String
  name : String
  symbol : String
  reserveUSD : ℚ
  volumeUSD : ℚ
  last24HourVol : ℚ
  apr : ℚ
deriving DecidableEq

/-- The pair's trailing-24-hour volume:
`pair.pairHourData?.reduce((sum, d) => sum.plus(d.hourlyVolumeUSD), 0) || 0`. -/
def last24Vol (p : NsPair) : ℚ := (p.pairHourData.getD []).foldl (· + ·) 0

/-- `Number(v.toFixed(2))`: render at two decimals and parse back. -/
def toFixed2Number (v : ℚ) : ℚ := (parseFloatL (toFixedL 2 v)).getD 0

namespace Netswap

/-- `fetchNetswapPairs` (src/defi/netswap.ts): page through the listing
(the accumulated `allPairs` is the adapter's input here), return `[]`
on a transport error or an empty universe, and keep the pairs with
`Number(pair.reserveUSD) > 1000`. -/
def fetchNetswapPairs (resp : Except String (List NsPair)) : List NsPair :=
  match resp with
  | .error _ => []
  | .ok allPairs =>
    if allPairs.isEmpty then []
    else allPairs.filter (fun pair => decide (1000 < pair.reserveUSD))

/-- `calculateNetswapLpApr` (src/defi/netswap.ts): annualize the
trailing daily volume at the 0.25% fee rate over the pool's reserve,
as a percentage rounded to two decimals; zero/negative reserves keep
`apr = 0`. -/
def calculateNetswapLpApr (pairs : List NsPair) : List NsApr :=
  pairs.map (fun pair =>
    ⟨pair.id,
      pair.token0.symbol ++ "-" ++ pair.token1.symbol,
      pair.token0.symbol ++ "/" ++ pair.token1.symbol,
      pair.reserveUSD,
      pair.volumeUSD,
      last24Vol pair,
      if 0 < pair.reserveUSD then
        toFixed2Number (last24Vol pair * 365 * 0.0025 / pair.reserveUSD * 100)
      else 0⟩)

end Netswap

namespace DexNetswap

/-- `fetchNetswapPairs` (src/defi/dex/netswap.ts): single top-100
query; the filter keeps a pair only when its reserve is positive, its
computed APR is strictly positive and `reserveUSD > 1000`. -/
def fetchNetswapPairs (resp : Except String (List NsPair)) : List NsPair :=
  match resp with
  | .error _ => []
  | .ok pairs =>
    if pairs.isEmpty then []
    else pairs.filter (fun pair =>
      if 0 < pair.reserveUSD then
        decide (0 < last24Vol pair * 365 * 0.0025 / pair.reserveUSD * 100) &&
          decide (1000 < pair.reserveUSD)
      else false)

/-- `calculateNetswapLpApr` (src/defi/dex/netswap.ts, same text as the
paginated file's). -/
def calculateNetswapLpApr (pairs : List NsPair) : List NsApr :=
  pairs.map (fun pair =>
    ⟨pair.id,
      pair.token0.symbol ++ "-" ++ pair.token1.symbol,
      pair.token0.symbol ++ "/" ++ pair.token1.symbol,
      pair.reserveUSD,
      pair.volumeUSD,
      last24Vol pair,
      if 0 < pair.reserveUSD then
        toFixed2Number (last24Vol pair * 365 * 0.0025 / pair.reserveUSD * 100)
      else 0⟩)

end DexNetswap

/-- Descending order on `apr` (the `(a, b) => b.apr - a.apr` comparator
of `getNetswapLpAprs`; JavaScript's `Array.prototype.sort` is a stable
sort, modelled by `List.insertionSort`). -/
def aprGE (a b : NsApr) : Prop := b.apr ≤ a.apr

instance : DecidableRel aprGE := fun a b => inferInstanceAs (Decidable (b.apr ≤ a.apr))

/-- `getNetswapLpAprs` (src/defi/netswap.ts): fetch, compute, sort by
APR descending.  Its own `catch` is unreachable because
`fetchNetswapPairs` already absorbs errors. -/
def Netswap.getNetswapLpAprs (resp : Except String (List NsPair)) : List NsApr :=
  List.insertionSort aprGE (Netswap.calculateNetswapLpApr (Netswap.fetchNetswapPairs resp))

/-- `getNetswapLpAprs` (src/defi/dex/netswap.ts, same text over the
`dex/` fetch). -/
def DexNetswap.getNetswapLpAprs (resp : Except String (List NsPair)) : List NsApr :=
  List.insertionSort aprGE (DexNetswap.calculateNetswapLpApr (DexNetswap.fetchNetswapPairs resp))

/-! ### Enki liquid-staking adapter (src/defi/enki.ts) -/

/-- One `dispatcheds` event from the reward-dispatcher subgraph.
`toVaultAmount` is only used numerically (BigNumber on an integer
string), so it is a `ℚ`; `blockNumber` stays a `String` because it is
passed as an opaque key to the historical supply query. -/
structure Dispatched : Type where
  id : String
  amount : String
  toVaultAmount : ℚ
  blockNumber : String
  blockTimestamp : String
deriving DecidableEq

/-- One entry of `getEnkiApr`'s result; `tvl` is a *string* (the
`ethers.utils.formatEther` rendering of the historical total supply),
exactly as in the source's return type annotation. -/
structure EnkiItem : Type where
  id : String
  amount : String
  tvl : String
  apr : ℚ
  timestamp : String
deriving DecidableEq

/-- Trailing-zero trimming of a fractional digit block. -/
def dropTrailingZeros (cs : List Char) : List Char :=
  (cs.reverse.dropWhile (fun c => c == '0')).reverse

/-- `ethers.utils.formatEther` on a wei amount: the 10^18-scaled
decimal string, fractional part trimmed of trailing zeros but kept
non-empty ("1.0" style). -/
def formatEtherL (n : ℕ) : List Char :=
  natChars (n / 10 ^ 18) ++ '.' ::
    (let frac := dropTrailingZeros (fracChars 18 (n % 10 ^ 18))
     if frac.isEmpty then ['0'] else frac)

/-- `ethers.utils.formatEther` as a `String`. -/
def formatEther (n : ℕ) : String := ⟨formatEtherL n⟩

/-- The per-event body of `getEnkiApr`'s `dispatcheds.map`: one
historical `totalSupply` query (the `supply` oracle, by block number),
then `apr = toVaultAmount / totalSupply * 365 * 10` and the formatted
`tvl`.  A failed query rejects this event's promise. -/
def enkiItemOf (supply : String → Except String ℕ) (d : Dispatched) :
    Except String EnkiItem :=
  match supply d.blockNumber with
  | .error e => .error e
  | .ok ts =>
    .ok ⟨d.id, d.amount, formatEther ts, d.toVaultAmount / (ts : ℚ) * 365 * 10,
      d.blockTimestamp⟩

/-- `Promise.all` over per-item `Except` computations: fail-fast on the
first rejection, otherwise collect every result in order. -/
def mapExcept {α β : Type} (f : α → Except String β) : List α → Except String (List β)
| [] => .ok []
| a :: t =>
  match f a with
  | .error e => .error e
  | .ok b =>
    match mapExcept f t with
    | .error e => .error e
    | .ok bs => .ok (b :: bs)

/-- The `try` body of `getEnkiApr`: the subgraph query followed by the
joined `Promise.all` of the per-event computations. -/
def getEnkiAprE (resp : Except String (List Dispatched))
    (supply : String → Except String ℕ) : Except String (List EnkiItem) :=
  match resp with
  | .error e => .error e
  | .ok ds => mapExcept (enkiItemOf supply) ds

/-- `getEnkiApr` (src/defi/enki.ts): any rejection — of the subgraph
query or of any single event's historical query — reaches the
function's `catch`, which returns `[]` for the whole batch. -/
def getEnkiApr (resp : Except String (List Dispatched))
    (supply : String → Except String ℕ) : List EnkiItem :=
  match getEnkiAprE resp supply with
  | .ok results => results
  | .error _ => []

/-! ## The aggregation engine (src/utils/aggregator.ts)

`YieldProtocol` state is its `cachedData` array, passed explicitly; an
operation returns `(result, new cache)` inside `Except` (`.error` = the
operation rejects to the caller).  `fetchAllProtocolsData`'s in-place
result/cache aliasing is recorded by the lemmas below. -/

/-- One unified record.  Field order: `protocol`, `name`, `apy`, `tvl`,
then the optional per-category fields `apr`, `poolAddress`, `symbol`,
`address`, `borrowIncentiveAPR`, `borrow`, `borrowApy`,
`stableBorrowApy`, `utilization` (the source's `utilizationRate`).
`tvl` is a `JsVal` because the Enki transform stores a string there at
runtime despite the `number` declaration. -/
structure URec : Type where
  protocol : String
  name : String
  apy : ℚ
  tvl : JsVal
  apr : Option ℚ
  poolAddress : Option String
  symbol : Option String
  address : Option String
  borrowIncentiveAPR : Option ℚ
  borrow : Option ℚ
  borrowApy : Option ℚ
  stableBorrowApy : Option ℚ
  utilization : Option String
deriving DecidableEq

/-- `getCategory` (src/utils/aggregator.ts). -/
def getCategory (protocol : String) : String :=
  if ["Hercules", "Netswap"].contains protocol then "Dex"
  else if ["AAVE"].contains protocol then "Lending"
  else if ["Enki"].contains protocol then "LST"
  else "Unknown"

/-- The category filter of `fetchAllProtocolsData`:
`["Dex", "Lending", "LST"].includes(getCategory(data.protocol))`. -/
def catFilter (d : URec) : Bool := ["Dex", "Lending", "LST"].contains (getCategory d.protocol)

/-- `transformHerculesPool` (src/utils/aggregator.ts). -/
def transformHerculesPool (pool : HPool) : URec :=
  ⟨"Hercules", pool.name, pool.apy.getD 0,
    .num (parseFormattedAmount (pool.tvl.getD "0")),
    some (pool.totalApr.getD 0), some pool.address,
    none, none, none, none, none, none, none⟩

/-- `transformAaveData` (src/utils/aggregator.ts); the guard for a
non-array argument returns `[]` and is vacuous for typed lists. -/
def transformAaveData (aaveReserves : List AaveReserve) : List URec :=
  aaveReserves.map (fun reserve =>
    ⟨"AAVE", reserve.name,
      multiplyStringAsFloat reserve.supplyAPY 100,
      .num (parseFormattedAmount reserve.totalLiquidityUSD),
      none, none,
      some reserve.symbol, some reserve.underlyingAsset,
      some (multiplyStringAsFloat (reserve.aIncentivesData.head?.getD none) 100),
      some (parseFormattedAmount reserve.totalDebtUSD),
      some (multiplyStringAsFloat reserve.variableBorrowAPY 100),
      some (multiplyStringAsFloat reserve.stableBorrowAPY 100),
      some reserve.borrowUsage⟩)

/-- `transformNetswapData` (src/utils/aggregator.ts): `apy` is the
daily-compounded conversion `(1 + apr/365)^365 - 1` of the pair's APR. -/
def transformNetswapData (netswapPairs : List NsApr) : List URec :=
  netswapPairs.map (fun pair =>
    ⟨"Netswap", pair.name, (1 + pair.apr / 365) ^ (365 : ℕ) - 1,
      .num pair.reserveUSD,
      some pair.apr, some pair.id,
      none, none, none, none, none, none, none⟩)

/-- `transformEnkiData` (src/utils/aggregator.ts): `name` is the
event's block timestamp, `tvl` is the adapter's (string!) `tvl` copied
through, `apy` is the same daily-compounded conversion. -/
def transformEnkiData (enkiYield : List EnkiItem) : List URec :=
  enkiYield.map (fun yieldData =>
    ⟨"Enki", yieldData.timestamp, (1 + yieldData.apr / 365) ^ (365 : ℕ) - 1,
      .str yieldData.tvl,
      some yieldData.apr, none,
      some "eMetis", none, none, none, none, none, none⟩)

/-- The adapter-call environment of one `fetchAllProtocolsData` run:
the four upstream responses, the Enki historical-supply oracle, and
`mergeFault`, an optional fault injected between the adapter joins and
the cache write.  `mergeFault := none` is the normal run; `some e`
models the hypothetical merge-step throw absorbed by the outer
`try/catch` (the "defensive second layer" — each adapter's own failure
is already caught per adapter and cannot reach it). -/
structure AdapterEnv : Type where
  herculesResp : Except String (Option (List HPool))
  aaveResult : Except String (List AaveReserve)
  netswapResp : Except String (List NsPair)
  enkiResp : Except String (List Dispatched)
  enkiSupply : String → Except String ℕ
  mergeFault : Option String

/-- The `try` body of `fetchAllProtocolsData`: the four per-adapter
`try/catch` blocks (an adapter failure yields `[]` for that adapter
only — for AAVE the `match` is the `catch`, for the other three the
adapter functions are already total), the concatenation in
{Hercules, AAVE, Netswap, Enki} order, and the category filter. -/
def fanOutMerge (env : AdapterEnv) : List URec :=
  let herculesData := (getHerculesPoolsArray env.herculesResp).map transformHerculesPool
  let aaveData :=
    match env.aaveResult with
    | .ok reserves => transformAaveData reserves
    | .error _ => []
  let netswapData := transformNetswapData (DexNetswap.getNetswapLpAprs env.netswapResp)
  let enkiData := transformEnkiData (getEnkiApr env.enkiResp env.enkiSupply)
  (herculesData ++ aaveData ++ netswapData ++ enkiData).filter catFilter

/-- `fetchAllProtocolsData` (src/utils/aggregator.ts): return the cache
when non-empty; otherwise run the fan-out, cache the filtered merge and
return it; if the body throws past the per-adapter isolation
(`mergeFault`), the outer `catch` re-checks the cache and rethrows when
it is empty. -/
def fetchAllProtocolsData (env : AdapterEnv) (cache : List URec) :
    Except String (List URec × List URec) :=
  if 0 < cache.length then .ok (cache, cache)
  else
    match env.mergeFault with
    | none =>
      let filteredData := fanOutMerge env
      .ok (filteredData, filteredData)
    | some e => if 0 < cache.length then .ok (cache, cache) else .error e

/-- `getAllData`: delegation to `fetchAllProtocolsData`. -/
def getAllData (env : AdapterEnv) (cache : List URec) :
    Except String (List URec × List URec) :=
  fetchAllProtocolsData env cache

/-- `getDataByProtocol`: case-insensitive exact match on `protocol`;
the filter builds a fresh array, leaving the cache as the fetch left
it. -/
def getDataByProtocol (env : AdapterEnv) (cache : List URec) (protocol : String) :
    Except String (List URec × List URec) :=
  match fetchAllProtocolsData env cache with
  | .error e => .error e
  | .ok (allPools, c) =>
    .ok (allPools.filter (fun pool => pool.protocol.toLower == protocol.toLower), c)

/-- Descending order on `apy` (`(a, b) => (b.apy || 0) - (a.apy || 0)`;
`apy` is always present, so the `|| 0` defaulting is the identity
here). -/
def apyGE (a b : URec) : Prop := b.apy ≤ a.apy

instance : DecidableRel apyGE := fun a b => inferInstanceAs (Decidable (b.apy ≤ a.apy))

instance : IsTotal URec apyGE :=
  ⟨fun a b => (le_total b.apy a.apy).imp (fun h => h) (fun h => h)⟩

instance : IsTrans URec apyGE := ⟨fun _ _ _ h1 h2 => le_trans h2 h1⟩

/-- `getTopYield(limit)`: `allPools.sort(...).slice(0, limit)`.
`Array.prototype.sort` sorts **in place** and is stable; `allPools` is
the cache array itself (`fetchAllProtocolsData` returns its cache, see
`fetchAll_aliases`), so the new cache is the sorted array and the
result is its first `limit` records. -/
def getTopYield (env : AdapterEnv) (cache : List URec) (limit : ℕ) :
    Except String (List URec × List URec) :=
  match fetchAllProtocolsData env cache with
  | .error e => .error e
  | .ok (allPools, _) =>
    .ok ((List.insertionSort apyGE allPools).take limit, List.insertionSort apyGE allPools)

/-- `getTopYield()` with the declared default `limit = 10`. -/
def getTopYieldDefault (env : AdapterEnv) (cache : List URec) :
    Except String (List URec × List URec) :=
  getTopYield env cache 10

/-- Case-insensitive substring test, `haystack.includes(needle)`. -/
def containsSub (needle : List Char) : List Char → Bool
| [] => needle.isEmpty
| c :: t => needle.isPrefixOf (c :: t) || containsSub needle t

/-- `getDataByToken`: case-insensitive substring match on `name`. -/
def getDataByToken (env : AdapterEnv) (cache : List URec) (token : String) :
    Except String (List URec × List URec) :=
  match fetchAllProtocolsData env cache with
  | .error e => .error e
  | .ok (allPools, c) =>
    .ok (allPools.filter (fun pool => containsSub token.toLower.data pool.name.toLower.data), c)

/-- JavaScript truthiness of a `JsVal` (`0` and `""` are falsy). -/
def jsFalsy : JsVal → Bool
| .num q => q == 0
| .str s => s == ""

/-- JavaScript `+` on mixed number/string values; `render` is the
engine-external number-to-string coercion used when a string operand
forces concatenation. -/
def jsAdd (render : ℚ → String) : JsVal → JsVal → JsVal
| .num a, .num b => .num (a + b)
| .num a, .str s => .str (render a ++ s)
| .str s, .num b => .str (s ++ render b)
| .str s, .str t => .str (s ++ t)

/-- One step of `getTotalTvl`'s accumulation:
`if (!tvlByProtocol[p]) tvlByProtocol[p] = 0; tvlByProtocol[p] += pool.tvl`
over an insertion-ordered keyed map. -/
def upsertTvl (render : ℚ → String) (m : List (String × JsVal)) (key : String)
    (v : JsVal) : List (String × JsVal) :=
  match m with
  | [] => [(key, jsAdd render (.num 0) v)]
  | (k, cur) :: t =>
    if k == key then
      (k, jsAdd render (if jsFalsy cur then .num 0 else cur) v) :: t
    else (k, cur) :: upsertTvl render t key v

/-- `formatAmount` on an `any` argument: numbers directly, strings via
`parseFloat` with the `isNaN` guard yielding `"0.00"`. -/
def formatAmountVal (v : JsVal) : String :=
  match v with
  | .num q => formatAmount q
  | .str s =>
    match parseFloatL s.data with
    | none => "0.00"
    | some q => formatAmount q

/-- The value computation of `getTotalTvl`: per-protocol totals in
first-seen key order, the grand total, and `$`-prefixed formatting. -/
def totalTvlOf (render : ℚ → String) (allPools : List URec) :
    String × List (String × String) :=
  let byProtocol := allPools.foldl (fun m pool => upsertTvl render m pool.protocol pool.tvl) []
  let total := (byProtocol.map (fun kv => kv.2)).foldl (jsAdd render) (.num 0)
  ("$" ++ formatAmountVal total,
    byProtocol.map (fun kv => (kv.1, "$" ++ formatAmountVal kv.2)))

/-- `getTotalTvl`: sums `tvl` by protocol plus a grand total, formatted;
reads the fetched array without mutating it. -/
def getTotalTvl (render : ℚ → String) (env : AdapterEnv) (cache : List URec) :
    Except String ((String × List (String × String)) × List URec) :=
  match fetchAllProtocolsData env cache with
  | .error e => .error e
  | .ok (allPools, c) => .ok (totalTvlOf render allPools, c)


/-! ### Correctness of the digit machinery -/

theorem toDigitsRev_lt : ∀ fuel n, ∀ d ∈ toDigitsRev fuel n, d < 10 := by
  intro fuel
  induction fuel with
  | zero => intro n d hd; simp [toDigitsRev] at hd
  | succ f ih =>
    intro n d hd
    by_cases h : n = 0
    · simp [toDigitsRev, h] at hd
    · simp only [toDigitsRev, if_neg h, List.mem_cons] at hd
      rcases hd with hd | hd
      · subst hd; exact Nat.mod_lt _ (by norm_num)
      · exact ih _ _ hd

theorem toDigitsRev_foldr : ∀ fuel n, n ≤ fuel →
    (toDigitsRev fuel n).foldr (fun d r => d + 10 * r) 0 = n := by
  intro fuel
  induction fuel with
  | zero => intro n hn; interval_cases n; simp [toDigitsRev]
  | succ f ih =>
    intro n hn
    by_cases h : n = 0
    · simp [toDigitsRev, h]
    · have hdiv : n / 10 ≤ f := by
        have h1 : n / 10 < n := Nat.div_lt_self (Nat.pos_of_ne_zero h) (by norm_num)
        omega
      simp only [toDigitsRev, if_neg h, List.foldr_cons, ih _ hdiv]
      omega

theorem charVal_digitChar {d : ℕ} (hd : d < 10) : charVal (digitChar d) = d := by
  interval_cases d <;> decide

theorem isDigit_digitChar {d : ℕ} (hd : d < 10) : (digitChar d).isDigit = true := by
  interval_cases d <;> decide

theorem valDigits_reverse_map (L : List ℕ) (hL : ∀ d ∈ L, d < 10) :
    valDigits ((L.map digitChar).reverse) = L.foldr (fun d r => d + 10 * r) 0 := by
  unfold valDigits
  rw [List.foldl_reverse, List.foldr_map]
  induction L with
  | nil => rfl
  | cons d t ih =>
    simp only [List.foldr_cons]
    rw [ih (fun x hx => hL x (List.mem_cons_of_mem _ hx)),
      charVal_digitChar (hL d (List.mem_cons_self _ _))]
    omega

theorem valDigits_natChars (n : ℕ) : valDigits (natChars n) = n := by
  by_cases h : n = 0
  · subst h; decide
  · unfold natChars
    rw [if_neg h, valDigits_reverse_map _ (toDigitsRev_lt n n), toDigitsRev_foldr n n le_rfl]

theorem natChars_ne_nil (n : ℕ) : natChars n ≠ [] := by
  unfold natChars
  by_cases h : n = 0
  · simp [h]
  · rw [if_neg h]
    intro he
    simp only [List.reverse_eq_nil_iff, List.map_eq_nil_iff] at he
    have := toDigitsRev_foldr n n le_rfl
    rw [he] at this
    simp at this
    exact h this.symm

theorem natChars_all_digit (n : ℕ) : ∀ c ∈ natChars n, c.isDigit = true := by
  intro c hc
  unfold natChars at hc
  by_cases h : n = 0
  · rw [if_pos h] at hc; simp at hc; subst hc; decide
  · rw [if_neg h] at hc
    rw [List.mem_reverse, List.mem_map] at hc
    obtain ⟨d, hd, rfl⟩ := hc
    exact isDigit_digitChar (toDigitsRev_lt n n d hd)

theorem toDigitsRev_length_le : ∀ fuel n k, n < 10 ^ k →
    (toDigitsRev fuel n).length ≤ k := by
  intro fuel
  induction fuel with
  | zero => intro n k _; simp [toDigitsRev]
  | succ f ih =>
    intro n k hk
    by_cases h : n = 0
    · simp [toDigitsRev, h]
    · have hk0 : k ≠ 0 := by
        intro hk0; subst hk0; simp at hk; omega
      obtain ⟨k', rfl⟩ := Nat.exists_eq_succ_of_ne_zero hk0
      have hdiv : n / 10 < 10 ^ k' := by
        rw [Nat.div_lt_iff_lt_mul (by norm_num)]
        calc n < 10 ^ (k' + 1) := hk
        _ = 10 ^ k' * 10 := by ring
      simp only [toDigitsRev, if_neg h, List.length_cons]
      exact Nat.succ_le_succ (ih _ _ hdiv)

theorem natChars_length_le {n k : ℕ} (hn : n < 10 ^ k) (hk : 1 ≤ k) :
    (natChars n).length ≤ k := by
  unfold natChars
  by_cases h : n = 0
  · simpa [h] using hk
  · rw [if_neg h]
    simpa using toDigitsRev_length_le n n k hn

theorem valDigits_replicate_zero (j : ℕ) (cs : List Char) :
    valDigits (List.replicate j '0' ++ cs) = valDigits cs := by
  induction j with
  | zero => rfl
  | succ i ih => simpa [List.replicate_succ, valDigits] using ih

theorem fracChars_length {k m : ℕ} (hm : m < 10 ^ k) (hk : 1 ≤ k) :
    (fracChars k m).length = k := by
  unfold fracChars padLeft
  have := natChars_length_le hm hk
  simp [List.length_replicate]
  omega

theorem valDigits_fracChars {k m : ℕ} : valDigits (fracChars k m) = m := by
  unfold fracChars padLeft
  rw [valDigits_replicate_zero, valDigits_natChars]

theorem fracChars_all_digit (k m : ℕ) : ∀ c ∈ fracChars k m, c.isDigit = true := by
  intro c hc
  unfold fracChars padLeft at hc
  rw [List.mem_append] at hc
  rcases hc with hc | hc
  · rw [List.eq_of_mem_replicate hc]; decide
  · exact natChars_all_digit m c hc

/-! ### Character-class facts -/

theorem ne_of_isDigit {c c' : Char} (hc : c.isDigit = true) (hc' : c'.isDigit = false) :
    c ≠ c' := by
  intro he; rw [he, hc'] at hc; cases hc

theorem not_ws_of_isDigit {c : Char} (hc : c.isDigit = true) : c.isWhitespace = false := by
  cases hw : c.isWhitespace
  · rfl
  · exfalso
    have h4 : ((c = ' ' ∨ c = '\t') ∨ c = '\x0d') ∨ c = '\n' := by
      simpa [Char.isWhitespace] using hw
    rcases h4 with ((h | h) | h) | h <;> (subst h; cases hc)

theorem not_suffix_of_isDigit {c : Char} (hc : c.isDigit = true) : isSuffixChar c = false := by
  unfold isSuffixChar
  have hK : c ≠ 'K' := ne_of_isDigit hc (by decide)
  have hk : c ≠ 'k' := ne_of_isDigit hc (by decide)
  have hM : c ≠ 'M' := ne_of_isDigit hc (by decide)
  have hm : c ≠ 'm' := ne_of_isDigit hc (by decide)
  have hB : c ≠ 'B' := ne_of_isDigit hc (by decide)
  have hb : c ≠ 'b' := ne_of_isDigit hc (by decide)
  simp [hK, hk, hM, hm, hB, hb]

/-- Characters of a fixed-point rendering: digits or the decimal dot. -/
theorem toFixedPos_chars (k : ℕ) (q : ℚ) :
    ∀ c ∈ toFixedPos k q, c.isDigit = true ∨ c = '.' := by
  intro c hc
  unfold toFixedPos at hc
  simp only [List.mem_append, List.mem_cons] at hc
  rcases hc with hc | hc | hc
  · exact Or.inl (natChars_all_digit _ c hc)
  · exact Or.inr hc
  · exact Or.inl (fracChars_all_digit _ _ c hc)

theorem isDigitOrDot_of_class {c : Char} (h : c.isDigit = true ∨ c = '.') :
    isDigitOrDot c = true := by
  rcases h with h | h
  · simp [isDigitOrDot, h]
  · subst h; decide

theorem not_ws_of_class {c : Char} (h : c.isDigit = true ∨ c = '.') :
    c.isWhitespace = false := by
  rcases h with h | h
  · exact not_ws_of_isDigit h
  · subst h; decide

theorem not_dollar_comma_of_class {c : Char} (h : c.isDigit = true ∨ c = '.') :
    (!(c == '$' || c == ',')) = true := by
  rcases h with h | h
  · have h1 : c ≠ '$' := ne_of_isDigit h (by decide)
    have h2 : c ≠ ',' := ne_of_isDigit h (by decide)
    simp [h1, h2]
  · subst h; decide

/-! ### takeWhile / dropWhile / trim support -/

theorem takeWhile_all_append {p : Char → Bool} :
    ∀ (A : List Char), (∀ c ∈ A, p c = true) → ∀ (b : Char) (B : List Char), p b = false →
    (A ++ b :: B).takeWhile p = A := by
  intro A
  induction A with
  | nil => intro _ b B hb; simp [List.takeWhile_cons, hb]
  | cons a t ih =>
    intro hA b B hb
    have ha : p a = true := hA a (List.mem_cons_self _ _)
    simp only [List.cons_append, List.takeWhile_cons, ha, if_true]
    rw [ih (fun c hc => hA c (List.mem_cons_of_mem _ hc)) b B hb]

theorem dropWhile_all_append {p : Char → Bool} :
    ∀ (A : List Char), (∀ c ∈ A, p c = true) → ∀ (b : Char) (B : List Char), p b = false →
    (A ++ b :: B).dropWhile p = b :: B := by
  intro A
  induction A with
  | nil => intro _ b B hb; simp [List.dropWhile_cons, hb]
  | cons a t ih =>
    intro hA b B hb
    have ha : p a = true := hA a (List.mem_cons_self _ _)
    simp only [List.cons_append, List.dropWhile_cons, ha, if_true]
    exact ih (fun c hc => hA c (List.mem_cons_of_mem _ hc)) b B hb

theorem takeWhile_eq_self_of_all {p : Char → Bool} :
    ∀ (B : List Char), (∀ c ∈ B, p c = true) → B.takeWhile p = B := by
  intro B
  induction B with
  | nil => intro _; rfl
  | cons b t ih =>
    intro hB
    simp only [List.takeWhile_cons, hB b (List.mem_cons_self _ _), if_true]
    rw [ih (fun c hc => hB c (List.mem_cons_of_mem _ hc))]

theorem dropWhile_eq_self_of_all_neg {p : Char → Bool} (B : List Char)
    (hB : ∀ c ∈ B, p c = false) : B.dropWhile p = B := by
  cases B with
  | nil => rfl
  | cons b t => simp [List.dropWhile_cons, hB b (List.mem_cons_self _ _)]

theorem trimL_eq_self {cs : List Char} (h : ∀ c ∈ cs, c.isWhitespace = false) :
    trimL cs = cs := by
  unfold trimL
  rw [dropWhile_eq_self_of_all_neg cs h,
    dropWhile_eq_self_of_all_neg cs.reverse (fun c hc => h c (List.mem_reverse.mp hc)),
    List.reverse_reverse]

/-! ### `parseFloat` on fixed-point strings -/

theorem parseFloat_fixed (A B : List Char) (hA1 : A ≠ [])
    (hA : ∀ c ∈ A, c.isDigit = true) (hB : ∀ c ∈ B, c.isDigit = true) :
    parseFloatL (A ++ '.' :: B) =
      some ((valDigits A : ℚ) + (valDigits B : ℚ) / 10 ^ B.length) := by
  obtain ⟨a, A', rfl⟩ : ∃ a A', A = a :: A' := by
    cases A with
    | nil => exact absurd rfl hA1
    | cons a A' => exact ⟨a, A', rfl⟩
  have ha : a.isDigit = true := hA a (List.mem_cons_self _ _)
  have hws : (a :: A' ++ '.' :: B).dropWhile Char.isWhitespace = a :: A' ++ '.' :: B := by
    apply dropWhile_eq_self_of_all_neg
    intro c hc
    simp only [List.cons_append, List.mem_cons, List.mem_append, List.mem_cons] at hc
    rcases hc with rfl | hc | rfl | hc
    · exact not_ws_of_isDigit ha
    · exact not_ws_of_isDigit (hA c (List.mem_cons_of_mem _ hc))
    · decide
    · exact not_ws_of_isDigit (hB c hc)
  have hhead : (a :: A' ++ '.' :: B).head? = some a := rfl
  have hneg : a ≠ '-' := ne_of_isDigit ha (by decide)
  have hpos : a ≠ '+' := ne_of_isDigit ha (by decide)
  have htake : (a :: A' ++ '.' :: B).takeWhile Char.isDigit = a :: A' :=
    takeWhile_all_append (a :: A') hA '.' B (by decide)
  have hdrop : (a :: A' ++ '.' :: B).dropWhile Char.isDigit = '.' :: B :=
    dropWhile_all_append (a :: A') hA '.' B (by decide)
  have hfrac : B.takeWhile Char.isDigit = B := takeWhile_eq_self_of_all B hB
  unfold parseFloatL
  rw [hws]
  simp only [hhead, Option.some.injEq, hneg, hpos, if_neg, ite_false, or_self,
    htake, hdrop, List.head?_cons, List.tail_cons, if_pos rfl, hfrac]
  have hne : (a :: A').isEmpty = false := rfl
  simp only [hne, Bool.false_and, if_neg Bool.false_ne_true]
  rw [one_mul]
  simp

theorem rnd_eq_floor (k : ℕ) (q : ℚ) : rnd k q = ⌊q * 10 ^ k + 1 / 2⌋ := rfl

theorem rnd_nonneg {k : ℕ} {q : ℚ} (hq : 0 ≤ q) : 0 ≤ rnd k q := by
  rw [rnd_eq_floor]
  apply Int.floor_nonneg.mpr
  positivity

theorem parse_toFixedPos (k : ℕ) (q : ℚ) (hk : 1 ≤ k) (_hq : 0 ≤ q) :
    parseFloatL (toFixedPos k q) = some (((rnd k q).toNat : ℚ) / 10 ^ k) := by
  unfold toFixedPos
  set n := (rnd k q).toNat with hn
  have hmod : n % 10 ^ k < 10 ^ k := Nat.mod_lt _ (by positivity)
  rw [parseFloat_fixed _ _ (natChars_ne_nil _) (natChars_all_digit _)
    (fracChars_all_digit _ _)]
  congr 1
  rw [valDigits_natChars, valDigits_fracChars, fracChars_length hmod hk]
  have hdm : 10 ^ k * (n / 10 ^ k) + n % 10 ^ k = n := Nat.div_add_mod _ _
  have hcast : (10 : ℚ) ^ k * ((n / 10 ^ k : ℕ) : ℚ) + ((n % 10 ^ k : ℕ) : ℚ) = (n : ℚ) := by
    exact_mod_cast congrArg (fun m : ℕ => (m : ℚ)) hdm
  have hpow : (0 : ℚ) < 10 ^ k := by positivity
  field_simp
  linarith [hcast]

/-! ### `parseFormattedAmount` on `formatAmount` outputs -/

theorem cleaned_toFixedPos_concat (k : ℕ) (q : ℚ) (extra : List Char)
    (hextra : ∀ c ∈ extra, (!(c == '$' || c == ',')) = true ∧ c.isWhitespace = false) :
    trimL ((toFixedPos k q ++ extra).filter (fun c => !(c == '$' || c == ','))) =
      toFixedPos k q ++ extra := by
  have hfilter : (toFixedPos k q ++ extra).filter (fun c => !(c == '$' || c == ',')) =
      toFixedPos k q ++ extra := by
    apply List.filter_eq_self.mpr
    intro c hc
    rcases List.mem_append.mp hc with hc | hc
    · exact not_dollar_comma_of_class (toFixedPos_chars k q c hc)
    · exact (hextra c hc).1
  rw [hfilter]
  apply trimL_eq_self
  intro c hc
  rcases List.mem_append.mp hc with hc | hc
  · exact not_ws_of_class (toFixedPos_chars k q c hc)
  · exact (hextra c hc).2

theorem isNumChars_toFixedPos (k : ℕ) (q : ℚ) : isNumChars (toFixedPos k q) = true := by
  unfold isNumChars
  have hne : (toFixedPos k q).isEmpty = false := by
    unfold toFixedPos
    cases h : natChars ((rnd k q).toNat / 10 ^ k) with
    | nil => exact absurd h (natChars_ne_nil _)
    | cons a t => simp [h]
  rw [hne]
  simp only [Bool.not_false, Bool.true_and]
  exact List.all_eq_true.mpr fun c hc => isDigitOrDot_of_class (toFixedPos_chars k q c hc)

theorem regexSplit_concat_suffix (F : List Char) (c : Char)
    (hsuf : isSuffixChar c = true) (hF : isNumChars F = true) :
    regexSplit (F ++ [c]) = some (F, some c) := by
  unfold regexSplit
  rw [List.getLast?_concat, List.dropLast_concat]
  simp [hsuf, hF]

theorem regexSplit_numeric (F : List Char) (G : List Char) (b : Char) (hFG : F = G ++ [b])
    (hb : b.isDigit = true) (hF : isNumChars F = true) :
    regexSplit F = some (F, none) := by
  unfold regexSplit
  rw [hFG, List.getLast?_concat]
  simp [not_suffix_of_isDigit hb, ← hFG, hF]

theorem parseFA_toFixed_suffix (k : ℕ) (q : ℚ) (hk : 1 ≤ k) (hq : 0 ≤ q) (c : Char)
    (hsuf : isSuffixChar c = true)
    (hclean : (!(c == '$' || c == ',')) = true ∧ c.isWhitespace = false) :
    parseFormattedAmountL (toFixedPos k q ++ [c]) =
      ((rnd k q).toNat : ℚ) / 10 ^ k * suffixMult (some c) := by
  have hcl := cleaned_toFixedPos_concat k q [c]
    (by intro x hx; rw [List.mem_singleton] at hx; exact hx ▸ hclean)
  have hr := regexSplit_concat_suffix (toFixedPos k q) c hsuf (isNumChars_toFixedPos k q)
  simp only [parseFormattedAmountL, hcl, hr, parse_toFixedPos k q hk hq]

theorem parseFA_toFixed_nosuffix (k : ℕ) (q : ℚ) (hk : 1 ≤ k) (hq : 0 ≤ q) :
    parseFormattedAmountL (toFixedPos k q) = ((rnd k q).toNat : ℚ) / 10 ^ k := by
  have hcl0 := cleaned_toFixedPos_concat k q [] (by intro x hx; cases hx)
  rw [List.append_nil] at hcl0
  set n := (rnd k q).toNat with hn
  have hmod : n % 10 ^ k < 10 ^ k := Nat.mod_lt _ (by positivity)
  have hlen : (fracChars k (n % 10 ^ k)).length = k := fracChars_length hmod hk
  obtain ⟨B', b, hB⟩ : ∃ B' b, fracChars k (n % 10 ^ k) = B' ++ [b] := by
    rcases (fracChars k (n % 10 ^ k)).eq_nil_or_concat with h | ⟨B', b, h⟩
    · rw [h] at hlen; simp at hlen; omega
    · exact ⟨B', b, by simpa using h⟩
  have hb : b.isDigit = true := by
    apply fracChars_all_digit k (n % 10 ^ k)
    rw [hB]
    exact List.mem_append_right _ (List.mem_singleton.mpr rfl)
  have hshape : toFixedPos k q = (natChars (n / 10 ^ k) ++ '.' :: B') ++ [b] := by
    unfold toFixedPos
    rw [← hn, hB]
    simp
  have hr := regexSplit_numeric (toFixedPos k q) _ b hshape hb (isNumChars_toFixedPos k q)
  simp only [parseFormattedAmountL, hcl0, hr, parse_toFixedPos k q hk hq, suffixMult, mul_one]

/-! ### Quantitative bounds for the rounding -/

theorem rnd_abs {k : ℕ} {q : ℚ} (hq : 0 ≤ q) :
    |((rnd k q).toNat : ℚ) - q * 10 ^ k| ≤ 1 / 2 := by
  have h0 : 0 ≤ rnd k q := rnd_nonneg hq
  have hc : ((rnd k q).toNat : ℚ) = ((rnd k q : ℤ) : ℚ) := by
    exact_mod_cast congrArg (fun z : ℤ => (z : ℚ)) (Int.toNat_of_nonneg h0)
  rw [hc, rnd_eq_floor]
  have h1 : ((⌊q * 10 ^ k + 1 / 2⌋ : ℤ) : ℚ) ≤ q * 10 ^ k + 1 / 2 := Int.floor_le _
  have h2 : q * 10 ^ k + 1 / 2 - 1 < ((⌊q * 10 ^ k + 1 / 2⌋ : ℤ) : ℚ) := Int.sub_one_lt_floor _
  rw [abs_le]
  constructor <;> linarith

/-- The value of `parseFormattedAmount ∘ formatAmount` on a non-negative
number, band by band. -/
theorem parse_format_eq (x : ℚ) (hx : 0 ≤ x) :
    parseFormattedAmount (formatAmount x) =
      if 10 ^ 9 ≤ x then ((rnd 2 (x / 10 ^ 9)).toNat : ℚ) / 100 * 1000000000
      else if 10 ^ 6 ≤ x then ((rnd 2 (x / 10 ^ 6)).toNat : ℚ) / 100 * 1000000
      else if 1000 ≤ x then ((rnd 1 (x / 1000)).toNat : ℚ) / 10 * 1000
      else ((rnd 2 x).toNat : ℚ) / 100 := by
  show parseFormattedAmountL (formatAmountL x) = _
  unfold formatAmountL
  split_ifs with h1 h2 h3
  · have hq : (0 : ℚ) ≤ x / 10 ^ 9 := by positivity
    rw [toFixedL, if_neg (not_lt.mpr hq),
      parseFA_toFixed_suffix 2 _ (by norm_num) hq 'B' (by decide) ⟨by decide, by decide⟩,
      show suffixMult (some 'B') = 1000000000 from rfl]
    norm_num
  · have hq : (0 : ℚ) ≤ x / 10 ^ 6 := by positivity
    rw [toFixedL, if_neg (not_lt.mpr hq),
      parseFA_toFixed_suffix 2 _ (by norm_num) hq 'M' (by decide) ⟨by decide, by decide⟩,
      show suffixMult (some 'M') = 1000000 from rfl]
    norm_num
  · have hq : (0 : ℚ) ≤ x / 1000 := by positivity
    rw [toFixedL, if_neg (not_lt.mpr hq),
      parseFA_toFixed_suffix 1 _ (by norm_num) hq 'K' (by decide) ⟨by decide, by decide⟩,
      show suffixMult (some 'K') = 1000 from rfl]
    norm_num
  · rw [toFixedL, if_neg (not_lt.mpr hx), parseFA_toFixed_nosuffix 2 x (by norm_num) hx]
    norm_num

/-! ## Claim theorems: C5 (formatting round-trip) -/

/-- C5 counterexample: at `x = 1049` the round trip gives `1000`
(the K band rounds the mantissa to one decimal), which is NOT within 1%
of `1049` — the claimed 1% tolerance for all `x ≥ 1000` fails. -/
theorem c5_counterexample :
    parseFormattedAmount (formatAmount 1049) = 1000 ∧
    ¬(|parseFormattedAmount (formatAmount 1049) - 1049| ≤ 1 / 100 * 1049) := by
  have hr : rnd 1 (1049 / 1000 : ℚ) = 10 := by
    rw [rnd_eq_floor]
    norm_num
  have h : parseFormattedAmount (formatAmount 1049) = 1000 := by
    rw [parse_format_eq 1049 (by norm_num), if_neg (by norm_num), if_neg (by norm_num),
      if_pos (by norm_num), hr, show (10 : ℤ).toNat = 10 from rfl]
    norm_num
  refine ⟨h, ?_⟩
  rw [h]
  norm_num

/-- C5 (amended): for non-negative `x`, `parseFormattedAmount ∘
formatAmount` is within 5% of `x` on the K band `1000 ≤ x < 10^6`
(one-decimal mantissa rounding), within 1% of `x` for `x ≥ 10^6`
(two-decimal mantissa rounding), and equal to `x` rounded half-up to
2 decimals for `x < 1000`. -/
theorem c5_round_trip (x : ℚ) (hx : 0 ≤ x) :
    (1000 ≤ x → x < 10 ^ 6 → |parseFormattedAmount (formatAmount x) - x| ≤ 5 / 100 * x) ∧
    (10 ^ 6 ≤ x → |parseFormattedAmount (formatAmount x) - x| ≤ 1 / 100 * x) ∧
    (x < 1000 → parseFormattedAmount (formatAmount x) = roundTo2 x) := by
  rw [parse_format_eq x hx]
  refine ⟨?_, ?_, ?_⟩
  · intro h3 h6
    rw [if_neg (by norm_num at h6 ⊢; linarith), if_neg (by norm_num at h6 ⊢; linarith),
      if_pos h3]
    have habs := @rnd_abs 1 (x / 1000) (by positivity)
    rw [abs_le] at habs ⊢
    obtain ⟨hl, hu⟩ := habs
    norm_num at hl hu ⊢
    constructor <;> linarith
  · intro h6
    by_cases h9 : 10 ^ 9 ≤ x
    · rw [if_pos h9]
      have habs := @rnd_abs 2 (x / 10 ^ 9) (by positivity)
      rw [abs_le] at habs ⊢
      obtain ⟨hl, hu⟩ := habs
      norm_num at hl hu h9 ⊢
      constructor <;> linarith
    · rw [if_neg h9, if_pos h6]
      have habs := @rnd_abs 2 (x / 10 ^ 6) (by positivity)
      rw [abs_le] at habs ⊢
      obtain ⟨hl, hu⟩ := habs
      norm_num at hl hu h6 h9 ⊢
      constructor <;> linarith
  · intro h0
    rw [if_neg (by norm_num at h0 ⊢; linarith), if_neg (by norm_num at h0 ⊢; linarith),
      if_neg (by norm_num at h0 ⊢; linarith)]
    unfold roundTo2
    congr 1
    exact_mod_cast congrArg (fun z : ℤ => (z : ℚ)) (Int.toNat_of_nonneg (rnd_nonneg hx))

/-- C5 witness: the amended bound applied at `x = 2500000`. -/
theorem c5_witness :
    |parseFormattedAmount (formatAmount 2500000) - 2500000| ≤ 1 / 100 * 2500000 :=
  (c5_round_trip 2500000 (by norm_num)).2.1 (by norm_num)

/-! ## mapExcept (Promise.all) lemmas -/

theorem mapExcept_error_of_mem {α β : Type} (f : α → Except String β) :
    ∀ l : List α, (∃ a ∈ l, ∃ e, f a = .error e) → ∃ e', mapExcept f l = .error e' := by
  intro l
  induction l with
  | nil => rintro ⟨a, ha, _⟩; cases ha
  | cons a t ih =>
    rintro ⟨x, hx, e, hxe⟩
    rcases List.mem_cons.mp hx with rfl | hxt
    · rw [mapExcept, hxe]
      exact ⟨e, rfl⟩
    · cases hfa : f a with
      | error e0 => exact ⟨e0, by rw [mapExcept, hfa]⟩
      | ok b =>
        obtain ⟨e', he'⟩ := ih ⟨x, hxt, e, hxe⟩
        exact ⟨e', by rw [mapExcept, hfa, he']⟩

theorem mapExcept_length_of_ok {α β : Type} (f : α → Except String β) :
    ∀ l : List α, (∀ a ∈ l, ∃ b, f a = .ok b) →
    ∃ bs, mapExcept f l = .ok bs ∧ bs.length = l.length := by
  intro l
  induction l with
  | nil => intro _; exact ⟨[], rfl, rfl⟩
  | cons a t ih =>
    intro h
    obtain ⟨b, hb⟩ := h a (List.mem_cons_self _ _)
    obtain ⟨bs, hbs, hlen⟩ := ih (fun x hx => h x (List.mem_cons_of_mem _ hx))
    refine ⟨b :: bs, ?_, by simp [hlen]⟩
    rw [mapExcept, hb, hbs]

/-! ## Claim theorems: C2 (tvl is a plain number) -/

/-- C2: the Enki transform never produces a numeric `tvl` — every record
it emits wraps the adapter's `formatEther` **string** unchanged; run on
the concrete pipeline (one distribution event, historical total supply
`10^18` wei) the unified record's `tvl` is the string `"1.0"`, not a
number.  This contradicts the spec's "always a plain number" and the
source's own `UnifiedData`/`LSTData` interfaces, which declare
`tvl: number`. -/
theorem c2_tvl_string :
    (∀ items : List EnkiItem,
      ((transformEnkiData items).all (fun r => !(JsVal.isNum r.tvl))) = true) ∧
    (transformEnkiData (getEnkiApr (.ok [⟨"1", "10", 5, "100", "t1"⟩])
        (fun b => if b = "100" then .ok (10 ^ 18) else .error "rpc down"))).map
      (fun r => r.tvl) = [JsVal.str "1.0"] := by
  constructor
  · intro items
    rw [List.all_eq_true]
    intro r hr
    rw [transformEnkiData, List.mem_map] at hr
    obtain ⟨y, _, rfl⟩ := hr
    rfl
  · rfl

/-! ## Claim theorems: C3 (per-item failure tolerance in getEnkiApr) -/

/-- C3 counterexample: a batch of two events where the first event's
historical query succeeds and the second's fails returns `[]` — the
succeeding event's record is NOT kept (run alone, the first event does
produce its record, so the empty result is the fail-fast
`Promise.all` + `catch`, not an empty input). -/
theorem c3_counterexample :
    getEnkiApr (.ok [⟨"1", "10", 5, "100", "t1"⟩, ⟨"2", "20", 7, "200", "t2"⟩])
        (fun b => if b = "100" then .ok (10 ^ 18) else .error "rpc down") = [] ∧
    (getEnkiApr (.ok [⟨"1", "10", 5, "100", "t1"⟩])
        (fun b => if b = "100" then .ok (10 ^ 18) else .error "rpc down")).map
      (fun r => r.id) = ["1"] := by
  exact ⟨rfl, rfl⟩

/-- C3 (amended): the liquid-staking adapter's per-event failure
handling is all-or-nothing, not per-item: if any event's historical
total-supply query fails, `getEnkiApr` returns `[]` for the whole
batch; only when every query succeeds does each event contribute a
result. -/
theorem c3_all_or_nothing (supply : String → Except String ℕ) (ds : List Dispatched) :
    ((∃ d ∈ ds, ∃ e, supply d.blockNumber = .error e) →
      getEnkiApr (.ok ds) supply = []) ∧
    ((∀ d ∈ ds, ∃ n, supply d.blockNumber = .ok n) →
      (getEnkiApr (.ok ds) supply).length = ds.length) := by
  constructor
  · rintro ⟨d, hd, e, he⟩
    have hitem : ∃ e', enkiItemOf supply d = .error e' := ⟨e, by rw [enkiItemOf, he]⟩
    obtain ⟨e', he'⟩ := mapExcept_error_of_mem (enkiItemOf supply) ds ⟨d, hd, hitem⟩
    rw [getEnkiApr, getEnkiAprE, he']
  · intro h
    have hitem : ∀ d ∈ ds, ∃ b, enkiItemOf supply d = .ok b := by
      intro d hd
      obtain ⟨n, hn⟩ := h d hd
      exact ⟨_, by rw [enkiItemOf, hn]⟩
    obtain ⟨bs, hbs, hlen⟩ := mapExcept_length_of_ok (enkiItemOf supply) ds hitem
    rw [getEnkiApr, getEnkiAprE, hbs, hlen]

/-- C3 witness: the amended all-or-nothing behaviour at concrete
inputs — one failing event empties a two-event batch, and a batch whose
single query succeeds keeps its one record. -/
theorem c3_witness :
    getEnkiApr (.ok [⟨"1", "10", 5, "100", "t1"⟩, ⟨"2", "20", 7, "300", "t2"⟩])
        (fun b => if b = "100" then .ok (10 ^ 18) else .error "down") = [] ∧
    (getEnkiApr (.ok [⟨"1", "10", 5, "100", "t1"⟩])
        (fun b => if b = "100" then .ok (10 ^ 18) else .error "down")).length = 1 := by
  constructor
  · exact (c3_all_or_nothing (fun b => if b = "100" then .ok (10 ^ 18) else .error "down")
      [⟨"1", "10", 5, "100", "t1"⟩, ⟨"2", "20", 7, "300", "t2"⟩]).1
      ⟨⟨"2", "20", 7, "300", "t2"⟩, by simp, "down", rfl⟩
  · exact (c3_all_or_nothing (fun b => if b = "100" then .ok (10 ^ 18) else .error "down")
      [⟨"1", "10", 5, "100", "t1"⟩]).2
      (by rintro d hd; rw [List.mem_singleton] at hd; subst hd; exact ⟨10 ^ 18, rfl⟩)

/-! ## Claim theorems: C4 (adapter-boundary error absorption) -/

/-- C4 counterexample: the lending adapter's `fetchContractData` has no
`try/catch` — a failing reserve-data view call propagates out as an
error, it does not become an empty list. -/
theorem c4_counterexample :
    fetchContractData (fun (_ : Unit) (_ : Unit) => ([] : List AaveReserve))
        (.error "rpc down") (.ok ()) = .error "rpc down" ∧
    fetchContractData (fun (_ : Unit) (_ : Unit) => ([] : List AaveReserve))
        (.error "rpc down") (.ok ()) ≠ .ok [] := by
  exact ⟨rfl, fun h => Except.noConfusion h⟩

/-- C4 (amended): the Hercules, Netswap (both variants) and Enki
adapters absorb any upstream failure (and Hercules also the malformed
payload) into an empty list at their own boundary; the lending
adapter's `fetchContractData` is the exception — it propagates the
failure of either view call to its caller, and only the aggregation
engine's per-adapter `catch` absorbs it. -/
theorem c4_adapter_boundaries (e : String) (supply : String → Except String ℕ) :
    fetchHerculesPools (.error e) = [] ∧
    fetchHerculesPools (.ok none) = [] ∧
    getHerculesPoolsArray (.error e) = [] ∧
    Netswap.getNetswapLpAprs (.error e) = [] ∧
    DexNetswap.getNetswapLpAprs (.error e) = [] ∧
    getEnkiApr (.error e) supply = [] ∧
    (∀ (ρ ι : Type) (fmt : ρ → ι → List AaveReserve) (iv : Except String ι),
      fetchContractData fmt (.error e) iv = .error e) ∧
    (∀ (ρ ι : Type) (fmt : ρ → ι → List AaveReserve) (rv : ρ),
      fetchContractData fmt (.ok rv) (.error e) = .error e) :=
  ⟨rfl, rfl, rfl, rfl, rfl, rfl, fun _ _ _ _ => rfl, fun _ _ _ _ => rfl⟩

/-! ## Claim theorems: C6 (apy defaults to 0 for APR-only sources) -/

/-- C6 counterexample: a Netswap pair with `apr = 365` is transformed
into a record with `apy = 2^365 - 1 ≠ 0` — the `apy` field of APR-only
records is the compounded conversion, not the claimed `0`. -/
theorem c6_counterexample :
    (transformNetswapData [⟨"0xid", "A-B", "A/B", 2000, 0, 0, 365⟩]).map
      (fun r => r.apy) = [(2 : ℚ) ^ (365 : ℕ) - 1] ∧
    ((2 : ℚ) ^ (365 : ℕ) - 1) ≠ 0 := by
  constructor
  · rw [transformNetswapData]
    norm_num
  · have h : (1 : ℚ) < 2 ^ (365 : ℕ) := one_lt_pow₀ (by norm_num) (by norm_num)
    intro h0
    rw [sub_eq_zero] at h0
    rw [h0] at h
    exact lt_irrefl 1 h

/-- C6 (amended): every Netswap record's and every Enki record's `apy`
field is present and equals the daily-compounded conversion
`(1 + apr/365)^365 - 1` of the record's `apr` (so it is `0` only when
that expression vanishes, e.g. at `apr = 0`), not the constant `0`. -/
theorem c6_apy_formula :
    (∀ pairs : List NsApr, (transformNetswapData pairs).map (fun r => r.apy) =
      pairs.map (fun p => (1 + p.apr / 365) ^ (365 : ℕ) - 1)) ∧
    (∀ items : List EnkiItem, (transformEnkiData items).map (fun r => r.apy) =
      items.map (fun y => (1 + y.apr / 365) ^ (365 : ℕ) - 1)) := by
  constructor
  · intro pairs
    rw [transformNetswapData, List.map_map]
    rfl
  · intro items
    rw [transformEnkiData, List.map_map]
    rfl

/-! ## Claim theorems: C8 (DEX liquidity floor) -/

theorem toFixed2Number_zero : toFixed2Number 0 = 0 := by
  unfold toFixed2Number
  rw [toFixedL, if_neg (by norm_num), parse_toFixedPos 2 0 (by norm_num) le_rfl]
  have h : rnd 2 0 = 0 := by
    rw [rnd_eq_floor]
    norm_num
  rw [h]
  norm_num

/-- C8 counterexample: the claim's second half fails on the Netswap
variant the aggregator imports (src/defi/dex/netswap.ts): its filter
also requires `apr > 0`, so the zero-volume pair with
`reserveUSD = 1001` is dropped there — while the paginated variant
(src/defi/netswap.ts) does keep it. -/
theorem c8_counterexample :
    DexNetswap.getNetswapLpAprs (.ok [⟨"p1001", ⟨"A"⟩, ⟨"B"⟩, 1001, 0, some []⟩]) = [] ∧
    Netswap.getNetswapLpAprs (.ok [⟨"p1001", ⟨"A"⟩, ⟨"B"⟩, 1001, 0, some []⟩]) ≠ [] := by
  have hdex : DexNetswap.fetchNetswapPairs (.ok [⟨"p1001", ⟨"A"⟩, ⟨"B"⟩, 1001, 0, some []⟩]) = [] := by
    rw [DexNetswap.fetchNetswapPairs]
    simp [last24Vol]
  have hpag : Netswap.fetchNetswapPairs (.ok [⟨"p1001", ⟨"A"⟩, ⟨"B"⟩, 1001, 0, some []⟩]) =
      [⟨"p1001", ⟨"A"⟩, ⟨"B"⟩, 1001, 0, some []⟩] := by
    rw [Netswap.fetchNetswapPairs]
    simp
    norm_num
  constructor
  · rw [DexNetswap.getNetswapLpAprs, hdex]
    rfl
  · rw [Netswap.getNetswapLpAprs, hpag]
    simp [Netswap.calculateNetswapLpApr, List.insertionSort]

/-- C8 (amended): both Netswap variants exclude every pair with
`reserveUSD ≤ 1000` regardless of its computed APR; the zero-volume
pair with `reserveUSD = 1001` is included with `apr = 0` by the
paginated variant (src/defi/netswap.ts), but excluded by the dex
variant (src/defi/dex/netswap.ts), whose filter additionally requires
a strictly positive APR. -/
theorem c8_liquidity_floor :
    (∀ (pairs : List NsPair) (p : NsPair), p.reserveUSD ≤ 1000 →
      p ∉ Netswap.fetchNetswapPairs (.ok pairs) ∧
      p ∉ DexNetswap.fetchNetswapPairs (.ok pairs)) ∧
    ((Netswap.getNetswapLpAprs (.ok [⟨"p1001", ⟨"A"⟩, ⟨"B"⟩, 1001, 0, some []⟩])).map
      (fun r => (r.id, r.apr)) = [("p1001", 0)]) ∧
    (DexNetswap.getNetswapLpAprs (.ok [⟨"p1001", ⟨"A"⟩, ⟨"B"⟩, 1001, 0, some []⟩]) = []) := by
  refine ⟨?_, ?_, ?_⟩
  · intro pairs p hp
    constructor
    · intro hmem
      rw [Netswap.fetchNetswapPairs] at hmem
      by_cases hE : pairs.isEmpty
      · rw [if_pos hE] at hmem
        cases hmem
      · rw [if_neg hE] at hmem
        have hpred := (List.mem_filter.mp hmem).2
        rw [decide_eq_true_iff] at hpred
        linarith
    · intro hmem
      rw [DexNetswap.fetchNetswapPairs] at hmem
      by_cases hE : pairs.isEmpty
      · rw [if_pos hE] at hmem
        cases hmem
      · rw [if_neg hE] at hmem
        have hpred := (List.mem_filter.mp hmem).2
        by_cases hr : 0 < p.reserveUSD
        · rw [if_pos hr, Bool.and_eq_true, decide_eq_true_iff, decide_eq_true_iff] at hpred
          linarith [hpred.2]
        · rw [if_neg hr] at hpred
          cases hpred
  · have hpag : Netswap.fetchNetswapPairs (.ok [⟨"p1001", ⟨"A"⟩, ⟨"B"⟩, 1001, 0, some []⟩]) =
        [⟨"p1001", ⟨"A"⟩, ⟨"B"⟩, 1001, 0, some []⟩] := by
      rw [Netswap.fetchNetswapPairs]
      simp
      norm_num
    rw [Netswap.getNetswapLpAprs, hpag]
    have harg : last24Vol ⟨"p1001", ⟨"A"⟩, ⟨"B"⟩, 1001, 0, some []⟩ * 365 * 0.0025 / 1001 * 100 =
        0 := by
      norm_num [last24Vol]
    simp [Netswap.calculateNetswapLpApr, List.insertionSort, List.orderedInsert, harg,
      toFixed2Number_zero]
  · have hdex : DexNetswap.fetchNetswapPairs (.ok [⟨"p1001", ⟨"A"⟩, ⟨"B"⟩, 1001, 0, some []⟩]) =
        [] := by
      rw [DexNetswap.fetchNetswapPairs]
      simp [last24Vol]
    rw [DexNetswap.getNetswapLpAprs, hdex]
    rfl

/-- C8 witness: the floor applied to the concrete `reserveUSD = 999`
pair — it is excluded by both variants. -/
theorem c8_witness :
    (⟨"p999", ⟨"A"⟩, ⟨"B"⟩, 999, 0, some []⟩ : NsPair) ∉
      Netswap.fetchNetswapPairs (.ok [⟨"p999", ⟨"A"⟩, ⟨"B"⟩, 999, 0, some []⟩]) ∧
    (⟨"p999", ⟨"A"⟩, ⟨"B"⟩, 999, 0, some []⟩ : NsPair) ∉
      DexNetswap.fetchNetswapPairs (.ok [⟨"p999", ⟨"A"⟩, ⟨"B"⟩, 999, 0, some []⟩]) :=
  c8_liquidity_floor.1 [⟨"p999", ⟨"A"⟩, ⟨"B"⟩, 999, 0, some []⟩]
    ⟨"p999", ⟨"A"⟩, ⟨"B"⟩, 999, 0, some []⟩ (by norm_num)

/-! ## Engine lemmas: the category filter keeps every transformed record -/

theorem catFilter_transformHercules (l : List HPool) :
    ∀ x ∈ l.map transformHerculesPool, catFilter x = true := by
  intro x hx
  rw [List.mem_map] at hx
  obtain ⟨p, _, rfl⟩ := hx
  rfl

theorem catFilter_transformAave (l : List AaveReserve) :
    ∀ x ∈ transformAaveData l, catFilter x = true := by
  intro x hx
  rw [transformAaveData, List.mem_map] at hx
  obtain ⟨r, _, rfl⟩ := hx
  rfl

theorem catFilter_transformNetswap (l : List NsApr) :
    ∀ x ∈ transformNetswapData l, catFilter x = true := by
  intro x hx
  rw [transformNetswapData, List.mem_map] at hx
  obtain ⟨p, _, rfl⟩ := hx
  rfl

theorem catFilter_transformEnki (l : List EnkiItem) :
    ∀ x ∈ transformEnkiData l, catFilter x = true := by
  intro x hx
  rw [transformEnkiData, List.mem_map] at hx
  obtain ⟨y, _, rfl⟩ := hx
  rfl

/-- The category filter of `fetchAllProtocolsData` is the identity on
every fan-out merge: all four transforms emit only protocols in the
category lookup (the "category derivation totality" of the spec). -/
theorem fanOutMerge_filter_id (env : AdapterEnv) :
    fanOutMerge env =
      (getHerculesPoolsArray env.herculesResp).map transformHerculesPool ++
      (match env.aaveResult with
        | .ok reserves => transformAaveData reserves
        | .error _ => []) ++
      transformNetswapData (DexNetswap.getNetswapLpAprs env.netswapResp) ++
      transformEnkiData (getEnkiApr env.enkiResp env.enkiSupply) := by
  rw [fanOutMerge]
  apply List.filter_eq_self.mpr
  intro x hx
  simp only [List.append_assoc, List.mem_append] at hx
  rcases hx with hx | hx | hx | hx
  · exact catFilter_transformHercules _ x hx
  · cases h : env.aaveResult with
    | ok reserves => rw [h] at hx; exact catFilter_transformAave _ x hx
    | error e => rw [h] at hx; cases hx
  · exact catFilter_transformNetswap _ x hx
  · exact catFilter_transformEnki _ x hx

/-! ## Claim theorems: C1 (partial-failure isolation) -/

/-- C1: on a cache-miss run in which the lending adapter's fetch
throws, `getAllData()` does not raise (`.ok`) and returns exactly the
Hercules, Netswap and Enki normalized outputs, unchanged and in
adapter order — the lending failure only removes the AAVE segment. -/
theorem c1_partial_failure_isolation
    (hresp : Except String (Option (List HPool))) (nresp : Except String (List NsPair))
    (eresp : Except String (List Dispatched)) (supply : String → Except String ℕ)
    (err : String) :
    getAllData ⟨hresp, .error err, nresp, eresp, supply, none⟩ [] =
      .ok ((getHerculesPoolsArray hresp).map transformHerculesPool ++
            transformNetswapData (DexNetswap.getNetswapLpAprs nresp) ++
            transformEnkiData (getEnkiApr eresp supply),
          (getHerculesPoolsArray hresp).map transformHerculesPool ++
            transformNetswapData (DexNetswap.getNetswapLpAprs nresp) ++
            transformEnkiData (getEnkiApr eresp supply)) := by
  have hmerge : fanOutMerge ⟨hresp, .error err, nresp, eresp, supply, none⟩ =
      (getHerculesPoolsArray hresp).map transformHerculesPool ++
      transformNetswapData (DexNetswap.getNetswapLpAprs nresp) ++
      transformEnkiData (getEnkiApr eresp supply) := by
    rw [fanOutMerge_filter_id]
    simp
  rw [getAllData, fetchAllProtocolsData, if_neg (by simp)]
  show Except.ok (fanOutMerge _, fanOutMerge _) = _
  rw [hmerge]

/-! ## Stability of the apy sort -/

theorem filter_apy_orderedInsert (a : URec) (l : List URec) (v : ℚ) :
    (List.orderedInsert apyGE a l).filter (fun r => decide (r.apy = v)) =
      if a.apy = v then a :: l.filter (fun r => decide (r.apy = v))
      else l.filter (fun r => decide (r.apy = v)) := by
  induction l with
  | nil =>
    by_cases ha : a.apy = v <;> simp [List.orderedInsert, List.filter, ha]
  | cons b t ih =>
    by_cases hr : apyGE a b
    · rw [List.orderedInsert_of_le apyGE t hr]
      by_cases ha : a.apy = v <;> simp [List.filter_cons, ha]
    · have hins : List.orderedInsert apyGE a (b :: t) = b :: List.orderedInsert apyGE a t := by
        simp [List.orderedInsert, hr]
      rw [hins]
      by_cases ha : a.apy = v
      · have hb : ¬(b.apy = v) := by
          intro hbv
          apply hr
          show b.apy ≤ a.apy
          rw [hbv, ha]
        simp [List.filter_cons, hb, ih, ha]
      · simp [List.filter_cons, ih, ha]

/-- Stability of the engine's apy sort, value by value: the records of
any given `apy` appear in the sorted array exactly in their original
relative order. -/
theorem filter_apy_insertionSort (l : List URec) (v : ℚ) :
    (List.insertionSort apyGE l).filter (fun r => decide (r.apy = v)) =
      l.filter (fun r => decide (r.apy = v)) := by
  induction l with
  | nil => rfl
  | cons a t ih =>
    show (List.orderedInsert apyGE a (List.insertionSort apyGE t)).filter _ = _
    rw [filter_apy_orderedInsert]
    by_cases ha : a.apy = v <;> simp [List.filter_cons, ha, ih]

/-! ## Claim theorems: C7 (getTopYield ordering) -/

/-- C7: whenever `getTopYield(n)` succeeds, its result is the first `n`
records of the new cache, the new cache is a descending-apy permutation
of the fetched record set, the sort is stable (every apy class keeps
its original relative order, hence ties keep the merged adapter-
concatenation order), and the declared default limit is 10. -/
theorem c7_top_yield :
    (∀ (env : AdapterEnv) (cache : List URec) (n : ℕ) (res newCache : List URec),
      getTopYield env cache n = .ok (res, newCache) →
      ∃ pools c0, fetchAllProtocolsData env cache = .ok (pools, c0) ∧
        res = newCache.take n ∧
        List.Sorted apyGE newCache ∧
        newCache.Perm pools ∧
        (∀ v : ℚ, newCache.filter (fun r => decide (r.apy = v)) =
          pools.filter (fun r => decide (r.apy = v)))) ∧
    (∀ (env : AdapterEnv) (cache : List URec),
      getTopYieldDefault env cache = getTopYield env cache 10) := by
  constructor
  · intro env cache n res newCache h
    cases hfetch : fetchAllProtocolsData env cache with
    | error e =>
      rw [getTopYield, hfetch] at h
      cases h
    | ok pc =>
      obtain ⟨pools, c0⟩ := pc
      rw [getTopYield, hfetch] at h
      injection h with h1
      rw [Prod.mk.injEq] at h1
      obtain ⟨hres, hnc⟩ := h1
      subst hnc
      subst hres
      exact ⟨pools, c0, rfl, rfl, List.sorted_insertionSort apyGE pools,
        List.perm_insertionSort apyGE pools, fun v => filter_apy_insertionSort pools v⟩
  · intro env cache
    rfl

/-- C7 witness: a two-record cache with tied apy 20; `getTopYield(1)`
keeps the first of the tied records, and the sorted cache preserves
their original order. -/
theorem c7_witness :
    ∃ pools c0,
      fetchAllProtocolsData
          ⟨.error "x", .error "x", .error "x", .error "x", fun _ => .error "x", none⟩
          [⟨"Hercules", "a", 20, .num 0, none, none, none, none, none, none, none, none, none⟩,
           ⟨"Netswap", "b", 20, .num 0, none, none, none, none, none, none, none, none, none⟩] =
        .ok (pools, c0) ∧
      [(⟨"Hercules", "a", 20, .num 0, none, none, none, none, none, none, none, none, none⟩ : URec)] =
        [(⟨"Hercules", "a", 20, .num 0, none, none, none, none, none, none, none, none, none⟩ : URec),
         ⟨"Netswap", "b", 20, .num 0, none, none, none, none, none, none, none, none, none⟩].take 1 ∧
      List.Sorted apyGE
        [⟨"Hercules", "a", 20, .num 0, none, none, none, none, none, none, none, none, none⟩,
         ⟨"Netswap", "b", 20, .num 0, none, none, none, none, none, none, none, none, none⟩] ∧
      List.Perm
        [⟨"Hercules", "a", 20, .num 0, none, none, none, none, none, none, none, none, none⟩,
         ⟨"Netswap", "b", 20, .num 0, none, none, none, none, none, none, none, none, none⟩] pools ∧
      (∀ v : ℚ,
        List.filter (fun r => decide (r.apy = v))
          [⟨"Hercules", "a", 20, .num 0, none, none, none, none, none, none, none, none, none⟩,
           ⟨"Netswap", "b", 20, .num 0, none, none, none, none, none, none, none, none, none⟩] =
        pools.filter (fun r => decide (r.apy = v))) := by
  apply c7_top_yield.1
    ⟨.error "x", .error "x", .error "x", .error "x", fun _ => .error "x", none⟩
    [⟨"Hercules", "a", 20, .num 0, none, none, none, none, none, none, none, none, none⟩,
     ⟨"Netswap", "b", 20, .num 0, none, none, none, none, none, none, none, none, none⟩]
    1
  have hfetch : fetchAllProtocolsData
      ⟨.error "x", .error "x", .error "x", .error "x", fun _ => .error "x", none⟩
      [⟨"Hercules", "a", 20, .num 0, none, none, none, none, none, none, none, none, none⟩,
       ⟨"Netswap", "b", 20, .num 0, none, none, none, none, none, none, none, none, none⟩] =
      .ok ([⟨"Hercules", "a", 20, .num 0, none, none, none, none, none, none, none, none, none⟩,
            ⟨"Netswap", "b", 20, .num 0, none, none, none, none, none, none, none, none, none⟩],
           [⟨"Hercules", "a", 20, .num 0, none, none, none, none, none, none, none, none, none⟩,
            ⟨"Netswap", "b", 20, .num 0, none, none, none, none, none, none, none, none, none⟩]) := by
    rw [fetchAllProtocolsData, if_pos (by norm_num)]
  rw [getTopYield, hfetch]
  have hsort : List.insertionSort apyGE
      [(⟨"Hercules", "a", 20, .num 0, none, none, none, none, none, none, none, none, none⟩ : URec),
       ⟨"Netswap", "b", 20, .num 0, none, none, none, none, none, none, none, none, none⟩] =
      [⟨"Hercules", "a", 20, .num 0, none, none, none, none, none, none, none, none, none⟩,
       ⟨"Netswap", "b", 20, .num 0, none, none, none, none, none, none, none, none, none⟩] := by
    show List.orderedInsert apyGE _ (List.orderedInsert apyGE _ []) = _
    rw [List.orderedInsert_nil]
    exact List.orderedInsert_of_le apyGE [] (le_refl (20 : ℚ))
  show Except.ok
      ((List.insertionSort apyGE
          [(⟨"Hercules", "a", 20, .num 0, none, none, none, none, none, none, none, none,
              none⟩ : URec),
           ⟨"Netswap", "b", 20, .num 0, none, none, none, none, none, none, none, none,
              none⟩]).take 1,
        List.insertionSort apyGE
          [(⟨"Hercules", "a", 20, .num 0, none, none, none, none, none, none, none, none,
              none⟩ : URec),
           ⟨"Netswap", "b", 20, .num 0, none, none, none, none, none, none, none, none,
              none⟩]) = _
  rw [hsort]
  rfl

/-! ## Claim theorems: C9 (getTopYield mutates the cache in place) -/

/-- C9: after any successful `getTopYield` the engine's cache is the
descending-apy sorted array (the sort happened in place on the cache
array); a subsequent `getAllData` on that non-empty sorted cache
returns it as is (sorted order observed, no re-fetch); and every other
query operation — `getAllData`, `getDataByProtocol`, `getDataByToken`,
`getTotalTvl` — leaves the cache exactly as the fetch step left it, so
`getTopYield` is the only query operation that mutates it. -/
theorem c9_cache_mutation (env : AdapterEnv) (cache pools c0 : List URec)
    (hfetch : fetchAllProtocolsData env cache = .ok (pools, c0)) :
    (∀ n : ℕ, getTopYield env cache n =
        .ok ((List.insertionSort apyGE pools).take n, List.insertionSort apyGE pools) ∧
      List.Sorted apyGE (List.insertionSort apyGE pools)) ∧
    (∀ env' : AdapterEnv, List.insertionSort apyGE pools ≠ [] →
      getAllData env' (List.insertionSort apyGE pools) =
        .ok (List.insertionSort apyGE pools, List.insertionSort apyGE pools)) ∧
    getAllData env cache = .ok (pools, c0) ∧
    (∀ protocol : String, getDataByProtocol env cache protocol =
      .ok (pools.filter (fun pool => pool.protocol.toLower == protocol.toLower), c0)) ∧
    (∀ token : String, getDataByToken env cache token =
      .ok (pools.filter (fun pool =>
        containsSub token.toLower.data pool.name.toLower.data), c0)) ∧
    (∀ render : ℚ → String, getTotalTvl render env cache =
      .ok (totalTvlOf render pools, c0)) := by
  refine ⟨?_, ?_, ?_, ?_, ?_, ?_⟩
  · intro n
    exact ⟨by rw [getTopYield, hfetch], List.sorted_insertionSort apyGE pools⟩
  · intro env' hne
    rw [getAllData, fetchAllProtocolsData, if_pos (List.length_pos.mpr hne)]
  · show fetchAllProtocolsData env cache = _
    exact hfetch
  · intro protocol
    rw [getDataByProtocol, hfetch]
  · intro token
    rw [getDataByToken, hfetch]
  · intro render
    rw [getTotalTvl, hfetch]

/-- C9 witness: the conclusion at a concrete one-record cache. -/
theorem c9_witness :
    (∀ n : ℕ, getTopYield
        ⟨.error "x", .error "x", .error "x", .error "x", fun _ => .error "x", none⟩
        [⟨"AAVE", "m", 5, .num 0, none, none, none, none, none, none, none, none, none⟩] n =
        .ok ((List.insertionSort apyGE
            [⟨"AAVE", "m", 5, .num 0, none, none, none, none, none, none, none, none, none⟩]).take n,
          List.insertionSort apyGE
            [⟨"AAVE", "m", 5, .num 0, none, none, none, none, none, none, none, none, none⟩]) ∧
      List.Sorted apyGE (List.insertionSort apyGE
        [⟨"AAVE", "m", 5, .num 0, none, none, none, none, none, none, none, none, none⟩])) ∧
    (∀ env' : AdapterEnv, List.insertionSort apyGE
        [(⟨"AAVE", "m", 5, .num 0, none, none, none, none, none, none, none, none, none⟩ : URec)] ≠ [] →
      getAllData env' (List.insertionSort apyGE
          [⟨"AAVE", "m", 5, .num 0, none, none, none, none, none, none, none, none, none⟩]) =
        .ok (List.insertionSort apyGE
            [⟨"AAVE", "m", 5, .num 0, none, none, none, none, none, none, none, none, none⟩],
          List.insertionSort apyGE
            [⟨"AAVE", "m", 5, .num 0, none, none, none, none, none, none, none, none, none⟩])) ∧
    getAllData ⟨.error "x", .error "x", .error "x", .error "x", fun _ => .error "x", none⟩
        [⟨"AAVE", "m", 5, .num 0, none, none, none, none, none, none, none, none, none⟩] =
      .ok ([⟨"AAVE", "m", 5, .num 0, none, none, none, none, none, none, none, none, none⟩],
        [⟨"AAVE", "m", 5, .num 0, none, none, none, none, none, none, none, none, none⟩]) ∧
    (∀ protocol : String, getDataByProtocol
        ⟨.error "x", .error "x", .error "x", .error "x", fun _ => .error "x", none⟩
        [⟨"AAVE", "m", 5, .num 0, none, none, none, none, none, none, none, none, none⟩] protocol =
      .ok ([⟨"AAVE", "m", 5, .num 0, none, none, none, none, none, none, none, none, none⟩].filter
          (fun pool => pool.protocol.toLower == protocol.toLower),
        [⟨"AAVE", "m", 5, .num 0, none, none, none, none, none, none, none, none, none⟩])) ∧
    (∀ token : String, getDataByToken
        ⟨.error "x", .error "x", .error "x", .error "x", fun _ => .error "x", none⟩
        [⟨"AAVE", "m", 5, .num 0, none, none, none, none, none, none, none, none, none⟩] token =
      .ok ([⟨"AAVE", "m", 5, .num 0, none, none, none, none, none, none, none, none, none⟩].filter
          (fun pool => containsSub token.toLower.data pool.name.toLower.data),
        [⟨"AAVE", "m", 5, .num 0, none, none, none, none, none, none, none, none, none⟩])) ∧
    (∀ render : ℚ → String, getTotalTvl render
        ⟨.error "x", .error "x", .error "x", .error "x", fun _ => .error "x", none⟩
        [⟨"AAVE", "m", 5, .num 0, none, none, none, none, none, none, none, none, none⟩] =
      .ok (totalTvlOf render
          [⟨"AAVE", "m", 5, .num 0, none, none, none, none, none, none, none, none, none⟩],
        [⟨"AAVE", "m", 5, .num 0, none, none, none, none, none, none, none, none, none⟩])) :=
  c9_cache_mutation
    ⟨.error "x", .error "x", .error "x", .error "x", fun _ => .error "x", none⟩
    [⟨"AAVE", "m", 5, .num 0, none, none, none, none, none, none, none, none, none⟩]
    [⟨"AAVE", "m", 5, .num 0, none, none, none, none, none, none, none, none, none⟩]
    [⟨"AAVE", "m", 5, .num 0, none, none, none, none, none, none, none, none, none⟩]
    (by rw [fetchAllProtocolsData, if_pos (by norm_num)])

/-! ## Claim theorems: C10 (cache population policy) -/

/-- C10: the fan-out runs exactly on an empty cache — with a non-empty
cache `fetchAllProtocolsData` returns the cache itself, independent of
every adapter (no adapter call); on an empty cache the merged result
becomes the new cache, so an empty merge leaves the cache empty and the
next query fans out again; and whenever the operation rejects, the
cache was empty and the rethrown error is the merge-step fault absorbed
by the outer catch. -/
theorem c10_cache_policy :
    (∀ (env env' : AdapterEnv) (cache : List URec), cache ≠ [] →
      fetchAllProtocolsData env cache = .ok (cache, cache) ∧
      fetchAllProtocolsData env cache = fetchAllProtocolsData env' cache) ∧
    (∀ (env : AdapterEnv) (res newCache : List URec),
      fetchAllProtocolsData env [] = .ok (res, newCache) → newCache = res) ∧
    (∀ (env : AdapterEnv) (cache : List URec) (e : String),
      fetchAllProtocolsData env cache = .error e →
        cache = [] ∧ env.mergeFault = some e) := by
  refine ⟨?_, ?_, ?_⟩
  · intro env env' cache hne
    have hp : 0 < cache.length := List.length_pos.mpr hne
    constructor
    · rw [fetchAllProtocolsData, if_pos hp]
    · rw [fetchAllProtocolsData, if_pos hp, fetchAllProtocolsData, if_pos hp]
  · intro env res newCache h
    rw [fetchAllProtocolsData, if_neg (by norm_num)] at h
    cases hmf : env.mergeFault with
    | none =>
      rw [hmf] at h
      injection h with h1
      rw [Prod.mk.injEq] at h1
      rw [← h1.1, ← h1.2]
    | some e =>
      rw [hmf] at h
      simp at h
  · intro env cache e h
    by_cases hc : cache = []
    · subst hc
      rw [fetchAllProtocolsData, if_neg (by norm_num)] at h
      cases hmf : env.mergeFault with
      | none =>
        rw [hmf] at h
        cases h
      | some e' =>
        rw [hmf] at h
        simp at h
        exact ⟨rfl, by rw [h]⟩

    · exfalso
      rw [fetchAllProtocolsData, if_pos (List.length_pos.mpr hc)] at h
      cases h

/-- C10 witness: the policy at concrete states — a one-record cache is
served unchanged for two different adapter environments, and an
injected merge fault on an empty cache rejects with that fault. -/
theorem c10_witness :
    (fetchAllProtocolsData
        ⟨.error "x", .error "x", .error "x", .error "x", fun _ => .error "x", none⟩
        [⟨"AAVE", "m", 5, .num 0, none, none, none, none, none, none, none, none, none⟩] =
      .ok ([⟨"AAVE", "m", 5, .num 0, none, none, none, none, none, none, none, none, none⟩],
        [⟨"AAVE", "m", 5, .num 0, none, none, none, none, none, none, none, none, none⟩]) ∧
      fetchAllProtocolsData
        ⟨.error "x", .error "x", .error "x", .error "x", fun _ => .error "x", none⟩
        [⟨"AAVE", "m", 5, .num 0, none, none, none, none, none, none, none, none, none⟩] =
      fetchAllProtocolsData
        ⟨.error "y", .error "y", .error "y", .error "y", fun _ => .error "y", none⟩
        [⟨"AAVE", "m", 5, .num 0, none, none, none, none, none, none, none, none, none⟩]) ∧
    (([] : List URec) = [] ∧
      (⟨.error "x", .error "x", .error "x", .error "x", fun _ => .error "x",
        some "boom"⟩ : AdapterEnv).mergeFault = some "boom") := by
  constructor
  · exact c10_cache_policy.1
      ⟨.error "x", .error "x", .error "x", .error "x", fun _ => .error "x", none⟩
      ⟨.error "y", .error "y", .error "y", .error "y", fun _ => .error "y", none⟩
      [⟨"AAVE", "m", 5, .num 0, none, none, none, none, none, none, none, none, none⟩]
      (List.cons_ne_nil _ _)
  · exact c10_cache_policy.2.2
      ⟨.error "x", .error "x", .error "x", .error "x", fun _ => .error "x", some "boom"⟩
      [] "boom" rfl
